import Mathlib

/-!
Shallow embedding of the Telebroad webhook merge engine
(`src/services/webhookEvents.js`, the webhook-merger service in
`src/services/followups.js`, `src/services/calls.js`, and the webhook
receiver `src/webhooks/telebroad-webhook-receiver.js`).

Conventions of the embedding:
* a string field holds `""` for a JavaScript value that is absent or the
  empty string (both are falsy in the source, and `createEvent` normalises
  absent webhook fields to `''`);
* timestamp fields are `Option Int` (milliseconds since the epoch); `none`
  models an absent or empty time string, whose `Date` parse the source
  never reaches because of `||` fallbacks;
* `Received At` is always populated (`new Date().toISOString()`), so it is
  a plain `Int`;
* fallible JavaScript code (property access on `undefined`, a store
  operation that throws) is modelled with `Option` and explicit failure
  flags.
-/

namespace CallTracking

/-- One row of the `Webhook Events` staging table, as written by
`webhookEventService.createEvent`. -/
structure WebhookEvent where
  id : Nat
  callId : String
  status : String
  direction : String
  sendType : String
  sendName : String
  sendNumber : String
  destinationType : String
  destinationName : String
  destinationNumber : String
  calledNumber : String
  callerIdExternal : String
  callerNameExternal : String
  startTime : Option Int
  callStartTime : Option Int
  receivedAt : Int
  processed : Bool
  mergedCallRecord : Option Nat
  deriving Repr, DecidableEq

/-- JavaScript `a || b` on strings, where only `''` is falsy under the
embedding's conventions. -/
def jsOr (a b : String) : String :=
  if a = "" then b else a

/-- JavaScript `Math.round((te - ta) / 1000)` on a millisecond difference:
`Math.round x = ⌊x + 1/2⌋`, so the result is `⌊(2 * d + 1000) / 2000⌋`. -/
def roundDiv1000 (d : Int) : Int :=
  Int.fdiv (2 * d + 1000) 2000

/-- Sort key used by `mergeCallEvents`:
`new Date(a['Start Time'] || a['Received At'])`. -/
def sortKey (e : WebhookEvent) : Int :=
  e.startTime.getD e.receivedAt

/-- Insert an element into an already sorted list, after every element
whose key is less than or equal to its own (the stable position). -/
def insertByKey {α : Type} (k : α → Int) (e : α) : List α → List α
  | [] => [e]
  | x :: xs => if k e < k x then e :: x :: xs else x :: insertByKey k e xs

/-- Stable sort by an integer key, modelling `Array.prototype.sort` with
the comparator `keyA - keyB` (stable per the ECMAScript specification). -/
def sortByKey {α : Type} (k : α → Int) (l : List α) : List α :=
  l.foldl (fun acc e => insertByKey k e acc) []

/-- The in-place `events.sort` at the top of `mergeCallEvents`. -/
def sortEvents (events : List WebhookEvent) : List WebhookEvent :=
  sortByKey sortKey events

/-- Predicate for the answered event:
`e['Status'] === 'answered' && e['Destination Type'] === 'phone'`. -/
def isAnsweredPhone (e : WebhookEvent) : Bool :=
  e.status == "answered" && e.destinationType == "phone"

/-- The `events.find` locating the answered event in `extractCallData`. -/
def findAnswered (events : List WebhookEvent) : Option WebhookEvent :=
  events.find? isAnsweredPhone

/-- Predicate for the ended event:
`e['Status'] === 'ended' && e['Send Type'] === 'external'`. -/
def isEndedExternal (e : WebhookEvent) : Bool :=
  e.status == "ended" && e.sendType == "external"

/-- The `events.find` locating the ended event in `extractCallData`. -/
def findEnded (events : List WebhookEvent) : Option WebhookEvent :=
  events.find? isEndedExternal

/-- Predicate for a hunt-group leg:
`e['Destination Type'] === 'huntgroup' || e['Send Type'] === 'huntgroup'`. -/
def isHuntGroup (e : WebhookEvent) : Bool :=
  e.destinationType == "huntgroup" || e.sendType == "huntgroup"

/-- The `events.find` locating the hunt-group event in `extractCallData`. -/
def findHuntGroupEvent (events : List WebhookEvent) : Option WebhookEvent :=
  events.find? isHuntGroup

/-- The IVR-path accumulation loop of `extractCallData`: scan events in
order, append `Destination Name` of each `ivr`-destination event whose
name is truthy and not already anywhere in the path. -/
def ivrPathOf (events : List WebhookEvent) : List String :=
  events.foldl
    (fun path e =>
      if e.destinationType == "ivr" && e.destinationName != "" then
        if e.destinationName ∈ path then path else path ++ [e.destinationName]
      else path)
    []

/-- The hunt-group label of `extractCallData`:
`huntGroupEvent ? (huntGroupEvent['Destination Name'] || huntGroupEvent['Send Name']) : null`
(`""` models the falsy `null`). -/
def huntGroupLabel (events : List WebhookEvent) : String :=
  match findHuntGroupEvent events with
  | some e => jsOr e.destinationName e.sendName
  | none => ""

/-- The final-status / call-direction decision chain of `extractCallData`,
given the direction derived from the first event. -/
def classify (events : List WebhookEvent) (direction : String) : String × String :=
  if (findAnswered events).isSome then ("Answered", direction)
  else if huntGroupLabel events ≠ "" then ("Missed", "Missed")
  else if ivrPathOf events ≠ [] then ("IVR Only", "Missed")
  else ("Abandoned", "Missed")

/-- The duration computation of `extractCallData`: `0` unless both an
answered and an ended event were found, otherwise
`Math.round((endTime - answerTime) / 1000)`; `none` models the `NaN`
produced when either event lacks a parseable `Start Time`. -/
def durationOf (events : List WebhookEvent) : Option Int :=
  match findAnswered events, findEnded events with
  | some a, some e =>
    match a.startTime, e.startTime with
    | some ta, some te => some (roundDiv1000 (te - ta))
    | _, _ => none
  | _, _ => some 0

/-- The end time stored by `extractCallData`:
`endedEvent ? endedEvent['Start Time'] : null`. -/
def endTimeOf (events : List WebhookEvent) : Option Int :=
  (findEnded events).bind (fun e => e.startTime)

/-- The merged call data assembled by `extractCallData` (the fields the
claims concern; `duration = none` models the JavaScript `NaN` that arises
when an answered or ended event lacks a parseable `Start Time`). -/
structure CallData where
  telebroadCallId : String
  direction : String
  dateTime : Option Int
  callerNumber : String
  callerName : String
  calledNumber : String
  ivrPath : String
  huntGroup : String
  finalStatus : String
  callStartTime : Option Int
  endTime : Option Int
  duration : Option Int
  webhookEvents : Nat
  pickedUpByName : Option String
  pickedUpByExtension : Option String
  answerTime : Option Int
  deriving Repr, DecidableEq

/-- `extractCallData(events)` from the webhook-merger service. On an empty
group the source dereferences `firstEvent['Direction']` with `firstEvent`
being `undefined`, raising a `TypeError`; that failure is modelled as
`none`. -/
def extractCallData (events : List WebhookEvent) : Option CallData :=
  match events with
  | [] => none
  | firstEvent :: _ =>
    let answeredEvent := findAnswered events
    let direction := if firstEvent.direction = "incoming" then "Inbound" else "Outbound"
    let statusDir := classify events direction
    some {
      telebroadCallId := firstEvent.callId
      direction := statusDir.2
      dateTime := firstEvent.callStartTime <|> firstEvent.startTime
      callerNumber := jsOr firstEvent.callerIdExternal firstEvent.sendNumber
      callerName := firstEvent.callerNameExternal
      calledNumber := firstEvent.calledNumber
      ivrPath := String.intercalate " → " (ivrPathOf events)
      huntGroup := huntGroupLabel events
      finalStatus := statusDir.1
      callStartTime := firstEvent.callStartTime
      endTime := endTimeOf events
      duration := durationOf events
      webhookEvents := events.length
      pickedUpByName := answeredEvent.map (fun e => e.destinationName)
      pickedUpByExtension := answeredEvent.map (fun e => e.destinationNumber)
      answerTime := answeredEvent.bind (fun e => e.startTime)
    }

/-- One record of the `Calls` table as the merge pipeline writes it:
`telebroadCallId` is the `Telebroad Call ID` field (`F.TB_CALL_ID`), set by
`createCall` / `updateCall` from `callData.telebroadCallId` (an unset
Airtable field reads back as the empty string). -/
structure CallRecord where
  id : Nat
  telebroadCallId : String
  data : CallData
  deriving Repr, DecidableEq

/-- The `Calls` table: a list of records plus the next fresh storage id. -/
structure CallsStore where
  records : List CallRecord
  nextId : Nat
  deriving Repr, DecidableEq

/-- `callService.findByTelebroadId`: filter on
`{TB_CALL_ID} = 'telebroadCallId'` and return `calls[0] || null`, i.e. the
first record whose key matches exactly. -/
def findByTelebroadId (store : CallsStore) (telebroadCallId : String) : Option CallRecord :=
  store.records.find? (fun r => r.telebroadCallId == telebroadCallId)

/-- `callService.createCall`: append a fresh record carrying the call
data, keyed by `callData.telebroadCallId`. -/
def createCall (store : CallsStore) (callData : CallData) : CallsStore × CallRecord :=
  let record : CallRecord :=
    { id := store.nextId, telebroadCallId := callData.telebroadCallId, data := callData }
  ({ records := store.records ++ [record], nextId := store.nextId + 1 }, record)

/-- `callService.updateCall`: overwrite the derived fields (including
`F.TB_CALL_ID`, which `updateCall` sets whenever
`updateData.telebroadCallId !== undefined`) of the record with the given
storage id, leaving every other record untouched. -/
def updateCall (store : CallsStore) (recordId : Nat) (callData : CallData) : CallsStore :=
  { store with
    records := store.records.map (fun r =>
      if r.id = recordId then
        { id := r.id, telebroadCallId := callData.telebroadCallId, data := callData }
      else r) }

/-- Outcome tag of `mergeCallEvents`. -/
inductive MergeAction where
  | created
  | updated
  deriving Repr, DecidableEq

/-- Return value of `mergeCallEvents`. -/
structure MergeResult where
  action : MergeAction
  callRecordId : Nat
  callData : CallData
  deriving Repr, DecidableEq

/-- `webhookMerger.mergeCallEvents(callId, events)`: sort the group,
extract the merged call data, then upsert keyed on the exact `callId`.
`none` models the `TypeError` thrown by `extractCallData` on an empty
group. -/
def mergeCallEvents (store : CallsStore) (callId : String) (events : List WebhookEvent) :
    Option (CallsStore × MergeResult) :=
  match extractCallData (sortEvents events) with
  | none => none
  | some callData =>
    match findByTelebroadId store callId with
    | some existingCall =>
      some (updateCall store existingCall.id callData,
        { action := .updated, callRecordId := existingCall.id, callData := callData })
    | none =>
      some ((createCall store callData).1,
        { action := .created, callRecordId := (createCall store callData).2.id,
          callData := callData })

/-- One step of `getEventsGroupedByCallId`'s accumulation: push the event
onto `grouped[event['Call ID']]`, creating the bucket on first sight (a
missing `Call ID` is the empty-string key, which is pushed like any
other). -/
def addToGroups (groups : List (String × List WebhookEvent)) (e : WebhookEvent) :
    List (String × List WebhookEvent) :=
  if groups.any (fun g => g.1 == e.callId) then
    groups.map (fun g => if g.1 == e.callId then (g.1, g.2 ++ [e]) else g)
  else
    groups ++ [(e.callId, [e])]

/-- The grouping loop of `webhookEventService.getEventsGroupedByCallId`,
keyed by `event['Call ID']` in first-occurrence order. -/
def groupByCallId (events : List WebhookEvent) : List (String × List WebhookEvent) :=
  events.foldl addToGroups []

/-- `webhookEventService.markMultipleAsProcessed`: set `Processed` and
`Merged Call Record` on every staged event whose storage id is listed. -/
def markMany (ids : List Nat) (recId : Nat) (events : List WebhookEvent) : List WebhookEvent :=
  events.map (fun e =>
    if ids.contains e.id then { e with processed := true, mergedCallRecord := some recId }
    else e)

/-- Combined state of the staging table and the `Calls` table. -/
structure SystemState where
  events : List WebhookEvent
  calls : CallsStore
  deriving Repr, DecidableEq

/-- The summary object returned by `processUnprocessedEvents`:
`{ processed: callIds.length, created, updated }`. -/
structure MergeSummary where
  processed : Nat
  created : Nat
  updated : Nat
  deriving Repr, DecidableEq

/-- Failure injection for the external Airtable store: `mergeFails cid`
models the upsert inside `mergeCallEvents` throwing for that call id
(before any store mutation), and `markFails cid` models
`markMultipleAsProcessed` throwing after a successful upsert. -/
structure FailurePlan where
  mergeFails : String → Bool
  markFails : String → Bool

/-- The body of the per-call `try/catch` in `processUnprocessedEvents`,
threading `(state, created, updated, failures)`: a throw anywhere inside
the `try` leaves the counters unchanged and moves to the next group. -/
def processGroup (plan : FailurePlan) (acc : SystemState × Nat × Nat × Nat)
    (g : String × List WebhookEvent) : SystemState × Nat × Nat × Nat :=
  let st := acc.1
  let created := acc.2.1
  let updated := acc.2.2.1
  let failures := acc.2.2.2
  if plan.mergeFails g.1 then (st, created, updated, failures + 1)
  else
    match mergeCallEvents st.calls g.1 g.2 with
    | none => (st, created, updated, failures + 1)
    | some res =>
      let created' := if res.2.action = .created then created + 1 else created
      let updated' := if res.2.action = .updated then updated + 1 else updated
      let st' : SystemState := { st with calls := res.1 }
      if plan.markFails g.1 then (st', created', updated', failures + 1)
      else
        ({ st' with
            events := markMany (g.2.map (fun e => e.id)) res.2.callRecordId st'.events },
          created', updated', failures)

/-- The groups a merge pass works on: unprocessed events, in the staging
store's `Received At` ascending order, grouped by `Call ID`. -/
def passGroups (st : SystemState) : List (String × List WebhookEvent) :=
  groupByCallId (sortByKey (fun e => e.receivedAt) (st.events.filter (fun e => !e.processed)))

/-- `processUnprocessedEvents` plus an observer: the final state, the
returned summary, and the number of times the per-call `catch` block ran
(the count of failed groups, which the source only logs). -/
def processPassAux (plan : FailurePlan) (st : SystemState) :
    SystemState × MergeSummary × Nat :=
  let groups := passGroups st
  let folded := groups.foldl (processGroup plan) (st, 0, 0, 0)
  (folded.1,
    { processed := groups.length, created := folded.2.1, updated := folded.2.2.1 },
    folded.2.2.2)

/-- `processUnprocessedEvents`: final state and returned summary. -/
def runMergePass (plan : FailurePlan) (st : SystemState) : SystemState × MergeSummary :=
  ((processPassAux plan st).1, (processPassAux plan st).2.1)

/-- Number of call groups whose processing threw during the pass (hit the
`catch` block); observable only in the logs, not in the summary. -/
def failedGroupCount (plan : FailurePlan) (st : SystemState) : Nat :=
  (processPassAux plan st).2.2

/-- A raw Telebroad webhook body as received by the HTTP endpoint (the
fields the receiver and `createEvent` consult; `""` models an absent
string field). -/
structure WebhookData where
  callId : String
  status : String
  direction : String
  sendType : String
  sendName : String
  sendNumber : String
  destinationType : String
  destinationName : String
  destinationNumber : String
  calledNumber : String
  callerIdExternal : String
  callerNameExternal : String
  startTime : Option Int
  callStartTime : Option Int
  deriving Repr, DecidableEq

/-- `webhookEventService.createEvent`: stage the webhook, defaulting every
absent field to `''`, with `Processed: false` and `Received At` set to the
current time. -/
def createEvent (now : Int) (freshId : Nat) (w : WebhookData) : WebhookEvent :=
  { id := freshId
    callId := w.callId
    status := w.status
    direction := w.direction
    sendType := w.sendType
    sendName := w.sendName
    sendNumber := w.sendNumber
    destinationType := w.destinationType
    destinationName := w.destinationName
    destinationNumber := w.destinationNumber
    calledNumber := w.calledNumber
    callerIdExternal := w.callerIdExternal
    callerNameExternal := w.callerNameExternal
    startTime := w.startTime
    callStartTime := w.callStartTime
    receivedAt := now
    processed := false
    mergedCallRecord := none }

/-- `validateWebhookData` from the webhook receiver: collect an error per
missing required field. -/
def validateWebhookData (w : WebhookData) : List String :=
  (if w.callId = "" then ["Missing callId"] else []) ++
  (if w.status = "" then ["Missing status"] else []) ++
  (if w.direction = "" then ["Missing direction"] else [])

/-- `handleWebhookWithValidation`: reject (log and return
`success: false`) when validation fails, otherwise stage the event.
Returns the updated staging table and the `success` flag. -/
def handleWebhookWithValidation (now : Int) (freshId : Nat)
    (staged : List WebhookEvent) (w : WebhookData) : List WebhookEvent × Bool :=
  if validateWebhookData w ≠ [] then (staged, false)
  else (staged ++ [createEvent now freshId w], true)

/-! Spec-side definitions, written from the specification's words so the
code's behaviour can be compared against them. -/

/-- Modelled from the spec: the §4.3 decision table exactly as claimed —
row 2 fires whenever *some* event has a hunt-group destination or source,
regardless of whether that leg carries a name. -/
def specFinalStatus (events : List WebhookEvent) : String :=
  if events.any isAnsweredPhone then "Answered"
  else if events.any isHuntGroup then "Missed"
  else if ivrPathOf events ≠ [] then "IVR Only"
  else "Abandoned"

/-- Modelled from the spec: the end time claimed in §4.2 — the
chronologically *last* event with `status == ended`, its event time. -/
def specEndTime (events : List WebhookEvent) : Option Int :=
  ((events.filter (fun e => e.status == "ended")).getLast?).bind (fun e => e.startTime)

/-- Modelled from the spec: the sort key claimed in §4.1 — `eventTime`,
falling back to the event's `callStartTime` when absent. -/
def specSortKey (e : WebhookEvent) : Int :=
  e.startTime.getD (e.callStartTime.getD 0)

/-- First-seen duplicate removal, written as the independent recursion
"keep the head, drop every later copy of it" for comparison with the
code's accumulate-and-test loop. -/
def firstSeen : List String → List String
  | [] => []
  | n :: ns => n :: firstSeen (ns.filter (fun m => m ≠ n))
termination_by l => l.length
decreasing_by
  simp only [List.length_cons]
  exact Nat.lt_succ_of_le (List.length_filter_le _ _)

/-- The raw IVR leg names of a group, in order: `Destination Name` of
every event whose destination type is `ivr` and whose name is non-empty. -/
def ivrNamesRaw (events : List WebhookEvent) : List String :=
  events.filterMap (fun e =>
    if e.destinationType == "ivr" && e.destinationName != "" then some e.destinationName
    else none)

/-- One dedup-append step of the IVR-path loop. -/
def dedupInsert (path : List String) (n : String) : List String :=
  if n ∈ path then path else path ++ [n]

/-! Concrete fixtures used to instantiate the theorems. -/

/-- A staged event with every optional field empty. -/
def baseEvent : WebhookEvent :=
  { id := 0, callId := "", status := "", direction := "", sendType := "", sendName := ""
    sendNumber := "", destinationType := "", destinationName := "", destinationNumber := ""
    calledNumber := "", callerIdExternal := "", callerNameExternal := ""
    startTime := none, callStartTime := none, receivedAt := 0
    processed := false, mergedCallRecord := none }

/-- An IVR leg named `A` at 1 s. -/
def ivrA1 : WebhookEvent :=
  { baseEvent with id := 1, callId := "c", status := "ringing", direction := "incoming"
                   destinationType := "ivr", destinationName := "A", startTime := some 1000
                   receivedAt := 1 }

/-- A second IVR leg named `A` at 2 s. -/
def ivrA2 : WebhookEvent :=
  { ivrA1 with id := 2, destinationName := "A", startTime := some 2000, receivedAt := 2 }

/-- An IVR leg named `B` at 3 s. -/
def ivrB3 : WebhookEvent :=
  { ivrA1 with id := 3, destinationName := "B", startTime := some 3000, receivedAt := 3 }

/-- A re-visit of IVR `A` at 4 s. -/
def ivrA4 : WebhookEvent :=
  { ivrA1 with id := 4, destinationName := "A", startTime := some 4000, receivedAt := 4 }

/-- An answered-by-phone leg at 10 s. -/
def answeredAt10 : WebhookEvent :=
  { baseEvent with id := 5, callId := "c", status := "answered", direction := "incoming"
                   destinationType := "phone", destinationName := "Alice"
                   destinationNumber := "101", startTime := some 10000, receivedAt := 5 }

/-- An external `ended` leg at 5 s (earlier than the answer — clock skew). -/
def endedAt5 : WebhookEvent :=
  { baseEvent with id := 6, callId := "c", status := "ended", direction := "incoming"
                   sendType := "external", startTime := some 5000, receivedAt := 6 }

/-- A second external `ended` leg at 9 s. -/
def endedAt9 : WebhookEvent :=
  { endedAt5 with id := 7, startTime := some 9000, receivedAt := 7 }

/-- A hunt-group leg whose destination and send names are both blank. -/
def huntUnnamed : WebhookEvent :=
  { baseEvent with id := 8, callId := "c", status := "ringing", direction := "incoming"
                   destinationType := "huntgroup", startTime := some 1000, receivedAt := 8 }

/-- A hunt-group leg named `Support`. -/
def huntNamed : WebhookEvent :=
  { huntUnnamed with id := 9, destinationName := "Support", receivedAt := 9 }

/-- An event with no `Start Time`, a late `Call Start Time`, and an early
`Received At`. -/
def eventNoStart : WebhookEvent :=
  { baseEvent with id := 10, callId := "c", status := "ringing", direction := "incoming"
                   callStartTime := some 20000, receivedAt := 1000 }

/-- An event with `Start Time` between the other fixture's two times. -/
def eventMidStart : WebhookEvent :=
  { baseEvent with id := 11, callId := "c", status := "ringing", direction := "incoming"
                   startTime := some 5000, receivedAt := 2000 }

/-- A staged event whose `Call ID` is missing (stored as the empty
string). -/
def eventNoCallId : WebhookEvent :=
  { baseEvent with id := 12, status := "ringing", direction := "incoming"
                   startTime := some 1000, receivedAt := 12 }

/-- A raw webhook body that lacks `callId`. -/
def webhookNoCallId : WebhookData :=
  { callId := "", status := "ringing", direction := "incoming", sendType := "external"
    sendName := "", sendNumber := "", destinationType := "ivr", destinationName := "A"
    destinationNumber := "", calledNumber := "", callerIdExternal := ""
    callerNameExternal := "", startTime := some 1000, callStartTime := some 1000 }

/-- An empty `Calls` table. -/
def emptyCalls : CallsStore := { records := [], nextId := 100 }

/-- A system state holding one unconsumed single-event group (call `c`). -/
def demoStateOne : SystemState := { events := [huntNamed], calls := emptyCalls }

/-- A hunt-group leg for a second call `d`. -/
def huntNamedD : WebhookEvent :=
  { huntNamed with id := 20, callId := "d", receivedAt := 10 }

/-- A system state holding two unconsumed single-event groups
(calls `c` and `d`). -/
def demoStateTwo : SystemState :=
  { events := [huntNamed, huntNamedD], calls := emptyCalls }

/-- A failure plan under which every store operation succeeds. -/
def planAllOk : FailurePlan :=
  { mergeFails := fun _ => false, markFails := fun _ => false }

/-- A failure plan under which marking call `c`'s events as processed
throws (after its upsert succeeded). -/
def planMarkCFails : FailurePlan :=
  { mergeFails := fun _ => false, markFails := fun cid => cid == "c" }

/-- A failure plan under which the upsert for call `c` throws. -/
def planMergeCFails : FailurePlan :=
  { mergeFails := fun cid => cid == "c", markFails := fun _ => false }

/-! Supporting lemmas about the stable sort. -/

lemma insertByKey_perm {α : Type} (k : α → Int) (e : α) (l : List α) :
    (insertByKey k e l).Perm (e :: l) := by
  induction l with
  | nil => simp [insertByKey]
  | cons x xs ih =>
    simp only [insertByKey]
    split
    · exact List.Perm.refl _
    · exact (ih.cons x).trans (List.Perm.swap e x xs)

lemma foldl_insertByKey_perm {α : Type} (k : α → Int) :
    ∀ (l acc : List α), (l.foldl (fun acc e => insertByKey k e acc) acc).Perm (acc ++ l) := by
  intro l
  induction l with
  | nil => intro acc; simp
  | cons x xs ih =>
    intro acc
    have h1 := ih (insertByKey k x acc)
    have h2 : (insertByKey k x acc ++ xs).Perm (x :: (acc ++ xs)) :=
      (insertByKey_perm k x acc).append_right xs
    exact (h1.trans h2).trans List.perm_middle.symm

lemma sortByKey_perm {α : Type} (k : α → Int) (l : List α) : (sortByKey k l).Perm l := by
  simpa using foldl_insertByKey_perm k l []

lemma mem_sortByKey {α : Type} (k : α → Int) (l : List α) (x : α) :
    x ∈ sortByKey k l ↔ x ∈ l :=
  (sortByKey_perm k l).mem_iff

lemma insertByKey_pairwise {α : Type} (k : α → Int) (e : α) (l : List α)
    (h : l.Pairwise (fun a b => k a ≤ k b)) :
    (insertByKey k e l).Pairwise (fun a b => k a ≤ k b) := by
  induction l with
  | nil => simp [insertByKey]
  | cons x xs ih =>
    rcases List.pairwise_cons.mp h with ⟨hx, hxs⟩
    simp only [insertByKey]
    split
    · rename_i hlt
      refine List.pairwise_cons.mpr ⟨?_, h⟩
      intro y hy
      rcases List.mem_cons.mp hy with rfl | hy'
      · exact le_of_lt hlt
      · exact le_trans (le_of_lt hlt) (hx y hy')
    · rename_i hnlt
      refine List.pairwise_cons.mpr ⟨?_, ih hxs⟩
      intro y hy
      rcases List.mem_cons.mp ((insertByKey_perm k e xs).mem_iff.mp hy) with rfl | hy'
      · exact le_of_not_lt hnlt
      · exact hx y hy'

lemma foldl_insertByKey_pairwise {α : Type} (k : α → Int) :
    ∀ (l acc : List α), acc.Pairwise (fun a b => k a ≤ k b) →
      (l.foldl (fun acc e => insertByKey k e acc) acc).Pairwise (fun a b => k a ≤ k b) := by
  intro l
  induction l with
  | nil => intro acc h; exact h
  | cons x xs ih => intro acc h; exact ih _ (insertByKey_pairwise k x acc h)

lemma sortByKey_pairwise {α : Type} (k : α → Int) (l : List α) :
    (sortByKey k l).Pairwise (fun a b => k a ≤ k b) :=
  foldl_insertByKey_pairwise k l [] (by simp)

lemma filter_insertByKey {α : Type} (k : α → Int) (e : α) (l : List α) (t : Int)
    (h : l.Pairwise (fun a b => k a ≤ k b)) :
    (insertByKey k e l).filter (fun a => k a == t) =
      if k e = t then l.filter (fun a => k a == t) ++ [e]
      else l.filter (fun a => k a == t) := by
  induction l with
  | nil =>
    by_cases he : k e = t <;> simp [insertByKey, List.filter_cons, beq_iff_eq, he]
  | cons x xs ih =>
    rcases List.pairwise_cons.mp h with ⟨hx, hxs⟩
    simp only [insertByKey]
    split
    · rename_i hlt
      by_cases he : k e = t
      · have hnil : (x :: xs).filter (fun a => k a == t) = [] := by
          refine List.filter_eq_nil_iff.mpr ?_
          intro y hy hbeq
          have hyt : k y = t := by simpa using hbeq
          have hle : k x ≤ k y := by
            rcases List.mem_cons.mp hy with rfl | hy'
            · exact le_refl _
            · exact hx y hy'
          omega
        simp [List.filter_cons, beq_iff_eq, he, hnil]
      · simp [List.filter_cons, beq_iff_eq, he]
    · rename_i hnlt
      by_cases he : k e = t <;>
        by_cases hxt : k x = t <;>
          simp [List.filter_cons, beq_iff_eq, he, hxt, ih hxs]

lemma foldl_insertByKey_filter {α : Type} (k : α → Int) (t : Int) :
    ∀ (l acc : List α), acc.Pairwise (fun a b => k a ≤ k b) →
      (l.foldl (fun acc e => insertByKey k e acc) acc).filter (fun a => k a == t) =
        acc.filter (fun a => k a == t) ++ l.filter (fun a => k a == t) := by
  intro l
  induction l with
  | nil => intro acc _; simp
  | cons x xs ih =>
    intro acc hacc
    have hstep := ih (insertByKey k x acc) (insertByKey_pairwise k x acc hacc)
    rw [List.foldl_cons, hstep, filter_insertByKey k x acc t hacc]
    by_cases hx : k x = t <;> simp [List.filter_cons, hx]

lemma sortByKey_filter {α : Type} (k : α → Int) (l : List α) (t : Int) :
    (sortByKey k l).filter (fun a => k a == t) = l.filter (fun a => k a == t) := by
  simpa using foldl_insertByKey_filter k t l [] (by simp)

/-! Supporting lemmas about grouping by call id. -/

lemma mem_addToGroups_elim (gs : List (String × List WebhookEvent)) (e : WebhookEvent)
    (g : String × List WebhookEvent) (x : WebhookEvent)
    (hg : g ∈ addToGroups gs e) (hx : x ∈ g.2) :
    (∃ g' ∈ gs, g'.1 = g.1 ∧ x ∈ g'.2) ∨ (x = e ∧ g.1 = e.callId) := by
  unfold addToGroups at hg
  split at hg
  · rcases List.mem_map.mp hg with ⟨g', hg', hmap⟩
    by_cases hbeq : (g'.1 == e.callId) = true
    · rw [if_pos hbeq] at hmap
      subst hmap
      rcases List.mem_append.mp hx with hx' | hx'
      · exact Or.inl ⟨g', hg', rfl, hx'⟩
      · have hxe : x = e := by simpa using hx'
        exact Or.inr ⟨hxe, by simpa using hbeq⟩
    · rw [if_neg hbeq] at hmap
      subst hmap
      exact Or.inl ⟨g', hg', rfl, hx⟩
  · rcases List.mem_append.mp hg with hg' | hg'
    · exact Or.inl ⟨g, hg', rfl, hx⟩
    · have : g = (e.callId, [e]) := by simpa using hg'
      subst this
      have hxe : x = e := by simpa using hx
      exact Or.inr ⟨hxe, rfl⟩

lemma foldl_addToGroups_sound (C : WebhookEvent → Prop) :
    ∀ (l : List WebhookEvent) (acc : List (String × List WebhookEvent)),
      (∀ g ∈ acc, ∀ x ∈ g.2, C x ∧ x.callId = g.1) →
      (∀ x ∈ l, C x) →
      ∀ g ∈ l.foldl addToGroups acc, ∀ x ∈ g.2, C x ∧ x.callId = g.1 := by
  intro l
  induction l with
  | nil => intro acc hacc _; exact hacc
  | cons y ys ih =>
    intro acc hacc hl
    refine ih (addToGroups acc y) ?_ (fun x hx => hl x (List.mem_cons_of_mem y hx))
    intro g hg x hx
    rcases mem_addToGroups_elim acc y g x hg hx with ⟨g', hg', hkey, hx'⟩ | ⟨rfl, hkey⟩
    · rcases hacc g' hg' x hx' with ⟨hc, hcid⟩
      exact ⟨hc, hkey ▸ hcid⟩
    · exact ⟨hl x (List.mem_cons_self x ys), hkey.symm⟩

lemma groupByCallId_sound (l : List WebhookEvent) :
    ∀ g ∈ groupByCallId l, ∀ x ∈ g.2, x ∈ l ∧ x.callId = g.1 :=
  foldl_addToGroups_sound (fun x => x ∈ l) l [] (by simp) (fun _ hx => hx)

lemma addToGroups_ne_nil (gs : List (String × List WebhookEvent)) (e : WebhookEvent)
    (hgs : ∀ g ∈ gs, g.2 ≠ []) : ∀ g ∈ addToGroups gs e, g.2 ≠ [] := by
  intro g hg
  unfold addToGroups at hg
  split at hg
  · rcases List.mem_map.mp hg with ⟨g', hg', hmap⟩
    by_cases hbeq : (g'.1 == e.callId) = true
    · rw [if_pos hbeq] at hmap
      subst hmap
      simp
    · rw [if_neg hbeq] at hmap
      subst hmap
      exact hgs g' hg'
  · rcases List.mem_append.mp hg with hg' | hg'
    · exact hgs g hg'
    · have : g = (e.callId, [e]) := by simpa using hg'
      subst this
      simp

lemma foldl_addToGroups_ne_nil :
    ∀ (l : List WebhookEvent) (acc : List (String × List WebhookEvent)),
      (∀ g ∈ acc, g.2 ≠ []) → ∀ g ∈ l.foldl addToGroups acc, g.2 ≠ [] := by
  intro l
  induction l with
  | nil => intro acc hacc; exact hacc
  | cons y ys ih => intro acc hacc; exact ih (addToGroups acc y) (addToGroups_ne_nil acc y hacc)

lemma groupByCallId_ne_nil (l : List WebhookEvent) : ∀ g ∈ groupByCallId l, g.2 ≠ [] :=
  foldl_addToGroups_ne_nil l [] (by simp)

lemma addToGroups_self (gs : List (String × List WebhookEvent)) (e : WebhookEvent) :
    ∃ g ∈ addToGroups gs e, g.1 = e.callId ∧ e ∈ g.2 := by
  unfold addToGroups
  split
  · rename_i hany
    rcases List.any_eq_true.mp hany with ⟨g', hg', hbeq⟩
    refine ⟨(g'.1, g'.2 ++ [e]), List.mem_map.mpr ⟨g', hg', by rw [if_pos hbeq]⟩, ?_, by simp⟩
    simpa using hbeq
  · exact ⟨(e.callId, [e]), by simp, rfl, by simp⟩

lemma addToGroups_pres (gs : List (String × List WebhookEvent)) (e : WebhookEvent)
    (c : String) (x : WebhookEvent) (h : ∃ g ∈ gs, g.1 = c ∧ x ∈ g.2) :
    ∃ g ∈ addToGroups gs e, g.1 = c ∧ x ∈ g.2 := by
  rcases h with ⟨g, hg, hc, hx⟩
  unfold addToGroups
  split
  · by_cases hbeq : (g.1 == e.callId) = true
    · exact ⟨(g.1, g.2 ++ [e]), List.mem_map.mpr ⟨g, hg, by rw [if_pos hbeq]⟩, hc,
        List.mem_append.mpr (Or.inl hx)⟩
    · exact ⟨g, List.mem_map.mpr ⟨g, hg, by rw [if_neg hbeq]⟩, hc, hx⟩
  · exact ⟨g, List.mem_append.mpr (Or.inl hg), hc, hx⟩

lemma foldl_addToGroups_pres :
    ∀ (l : List WebhookEvent) (acc : List (String × List WebhookEvent))
      (c : String) (x : WebhookEvent), (∃ g ∈ acc, g.1 = c ∧ x ∈ g.2) →
      ∃ g ∈ l.foldl addToGroups acc, g.1 = c ∧ x ∈ g.2 := by
  intro l
  induction l with
  | nil => intro acc c x h; exact h
  | cons y ys ih => intro acc c x h; exact ih (addToGroups acc y) c x (addToGroups_pres acc y c x h)

lemma groupByCallId_total (l : List WebhookEvent) (x : WebhookEvent) (hx : x ∈ l) :
    ∃ g ∈ groupByCallId l, g.1 = x.callId ∧ x ∈ g.2 := by
  rcases List.append_of_mem hx with ⟨s, t, rfl⟩
  unfold groupByCallId
  rw [List.foldl_append, List.foldl_cons]
  exact foldl_addToGroups_pres t (addToGroups (s.foldl addToGroups []) x) x.callId x
    (addToGroups_self (s.foldl addToGroups []) x)

/-! Supporting lemmas about the IVR path. -/

lemma ivrPathOf_foldl (l : List WebhookEvent) :
    ∀ acc : List String,
      l.foldl
        (fun path e =>
          if e.destinationType == "ivr" && e.destinationName != "" then
            if e.destinationName ∈ path then path else path ++ [e.destinationName]
          else path) acc
      = (ivrNamesRaw l).foldl dedupInsert acc := by
  induction l with
  | nil => intro acc; simp [ivrNamesRaw]
  | cons e l ih =>
    intro acc
    by_cases hguard : (e.destinationType == "ivr" && e.destinationName != "") = true
    · simp only [List.foldl_cons, hguard, if_true, ivrNamesRaw, List.filterMap_cons, hguard]
      rw [ih]
      rfl
    · have hg' : (e.destinationType == "ivr" && e.destinationName != "") = false := by
        simpa using hguard
      simp only [List.foldl_cons, hg', ivrNamesRaw, List.filterMap_cons, Bool.false_eq_true,
        if_false]
      exact ih acc

lemma foldl_dedupInsert_eq_firstSeen :
    ∀ (ns acc : List String),
      ns.foldl dedupInsert acc = acc ++ firstSeen (ns.filter (fun m => !(decide (m ∈ acc)))) := by
  intro ns
  induction ns with
  | nil => intro acc; simp [firstSeen]
  | cons n ns ih =>
    intro acc
    rw [List.foldl_cons]
    by_cases hn : n ∈ acc
    · have : dedupInsert acc n = acc := by simp [dedupInsert, hn]
      rw [this, ih, List.filter_cons]
      simp [hn]
    · have hd : dedupInsert acc n = acc ++ [n] := by simp [dedupInsert, hn]
      rw [hd, ih, List.filter_cons]
      simp only [hn, decide_False, Bool.not_false, if_true]
      have hfs : firstSeen (n :: ns.filter (fun m => !(decide (m ∈ acc)))) =
          n :: firstSeen ((ns.filter (fun m => !(decide (m ∈ acc)))).filter
            (fun m => m ≠ n)) := by
        simp [firstSeen]
      have hff : (ns.filter (fun m => !(decide (m ∈ acc)))).filter (fun m => m ≠ n) =
          ns.filter (fun m => !(decide (m ∈ acc ++ [n]))) := by
        rw [List.filter_filter]
        refine List.filter_congr ?_
        intro a _
        by_cases h1 : a ∈ acc <;> by_cases h2 : a = n <;>
          simp [h1, h2, List.mem_append]
      rw [hfs, hff]
      simp

lemma ivrPathOf_eq_firstSeen (events : List WebhookEvent) :
    ivrPathOf events = firstSeen (ivrNamesRaw events) := by
  unfold ivrPathOf
  rw [ivrPathOf_foldl events [], foldl_dedupInsert_eq_firstSeen (ivrNamesRaw events) []]
  simp

lemma firstSeen_subset : ∀ (ns : List String) (x : String), x ∈ firstSeen ns → x ∈ ns := by
  intro ns
  induction ns using firstSeen.induct with
  | case1 => intro x hx; simp [firstSeen] at hx
  | case2 n ns ih =>
    intro x hx
    rw [show firstSeen (n :: ns) = n :: firstSeen (ns.filter (fun m => m ≠ n)) from by
      simp [firstSeen]] at hx
    rcases List.mem_cons.mp hx with rfl | hx'
    · exact List.mem_cons_self x ns
    · exact List.mem_cons_of_mem n (List.mem_filter.mp (ih x hx')).1

lemma mem_ivrNamesRaw_ne_empty (events : List WebhookEvent) (x : String)
    (hx : x ∈ ivrNamesRaw events) : x ≠ "" := by
  rcases List.mem_filterMap.mp hx with ⟨e, _, he⟩
  by_cases hguard : (e.destinationType == "ivr" && e.destinationName != "") = true
  · rw [if_pos hguard] at he
    have hand : (e.destinationType == "ivr") = true ∧ (e.destinationName != "") = true := by
      simpa using hguard
    have hne : ¬ e.destinationName = "" := by simpa using hand.2
    rcases Option.some.inj he with rfl
    exact hne
  · rw [if_neg hguard] at he
    exact absurd he (by simp)

/-! Supporting lemmas about `find?` and the extraction projections. -/

lemma find?_append_cons {α : Type} (p : α → Bool) (l1 l2 : List α) (e : α)
    (h1 : ∀ y ∈ l1, p y = false) (hp : p e = true) :
    (l1 ++ e :: l2).find? p = some e := by
  induction l1 with
  | nil => simp [List.find?_cons, hp]
  | cons y ys ih =>
    have hy : p y = false := h1 y (List.mem_cons_self y ys)
    rw [List.cons_append, List.find?_cons, hy]
    exact ih (fun z hz => h1 z (List.mem_cons_of_mem y hz))

lemma extract_telebroadCallId (f : WebhookEvent) (rest : List WebhookEvent) :
    (extractCallData (f :: rest)).map (fun c => c.telebroadCallId) = some f.callId := rfl

lemma extract_finalStatus (f : WebhookEvent) (rest : List WebhookEvent) :
    (extractCallData (f :: rest)).map (fun c => c.finalStatus) =
      some (classify (f :: rest)
        (if f.direction = "incoming" then "Inbound" else "Outbound")).1 := rfl

lemma extract_ivrPath (f : WebhookEvent) (rest : List WebhookEvent) :
    (extractCallData (f :: rest)).map (fun c => c.ivrPath) =
      some (String.intercalate " → " (ivrPathOf (f :: rest))) := rfl

lemma extract_endTime (f : WebhookEvent) (rest : List WebhookEvent) :
    (extractCallData (f :: rest)).map (fun c => c.endTime) = some (endTimeOf (f :: rest)) := rfl

lemma extract_duration (f : WebhookEvent) (rest : List WebhookEvent) :
    (extractCallData (f :: rest)).map (fun c => c.duration) = some (durationOf (f :: rest)) := rfl

lemma extract_isSome (events : List WebhookEvent) (h : events ≠ []) :
    (extractCallData events).isSome = true := by
  match events, h with
  | f :: rest, _ => rfl

/-- The existential reading of the answered-event condition. -/
lemma findAnswered_isSome_iff (events : List WebhookEvent) :
    (findAnswered events).isSome = true ↔ ∃ e ∈ events, isAnsweredPhone e = true :=
  List.find?_isSome

/-- The existential reading of the truthiness of the hunt-group label. -/
lemma huntGroupLabel_ne_iff (events : List WebhookEvent) :
    huntGroupLabel events ≠ "" ↔
      ∃ e, findHuntGroupEvent events = some e ∧ jsOr e.destinationName e.sendName ≠ "" := by
  unfold huntGroupLabel
  cases hf : findHuntGroupEvent events with
  | none => simp
  | some e => simp

/-- Case analysis of `classify`'s final status. -/
lemma classify_fst (events : List WebhookEvent) (dir : String) :
    (classify events dir).1 =
      if (findAnswered events).isSome then "Answered"
      else if huntGroupLabel events ≠ "" then "Missed"
      else if ivrPathOf events ≠ [] then "IVR Only"
      else "Abandoned" := by
  unfold classify
  by_cases h1 : (findAnswered events).isSome <;>
    by_cases h2 : huntGroupLabel events ≠ "" <;>
      by_cases h3 : ivrPathOf events ≠ [] <;>
        simp [h1, h2, h3]

lemma sortEvents_ne_nil (l : List WebhookEvent) (h : l ≠ []) : sortEvents l ≠ [] := by
  intro hnil
  apply h
  have hlen := (sortByKey_perm sortKey l).length_eq
  unfold sortEvents at hnil
  rw [hnil] at hlen
  exact List.length_eq_zero.mp hlen.symm

/-- C2 counterexample: a group whose only event is a hunt-group leg with
blank destination and send names. Row 2 of the claimed decision table
fires (the event has a hunt-group destination, no answered-by-phone event
exists), so the claim predicts `Missed`; the code classifies the group as
`Abandoned`, because the falsy hunt-group label `'' || ''` skips the
`Missed` branch. -/
theorem finalStatus_unnamed_huntgroup_cex :
    (∃ e ∈ [huntUnnamed], isHuntGroup e = true) ∧
    (¬ ∃ e ∈ [huntUnnamed], isAnsweredPhone e = true) ∧
    (extractCallData [huntUnnamed]).map (fun c => c.finalStatus) = some "Abandoned" ∧
    specFinalStatus [huntUnnamed] = "Missed" := by decide

/-- C2 (amended): the final status is a pure first-match-wins decision
table — `Answered` when some event is answered-by-phone; otherwise
`Missed` when a hunt-group event exists *and* the first such event carries
a non-blank destination or send name; otherwise `IVR Only` when the IVR
path is non-empty; otherwise `Abandoned`. In particular a group with both
a hunt-group leg and an answered-by-phone leg is `Answered`. -/
theorem finalStatus_decision_table (events : List WebhookEvent) (hne : events ≠ []) :
    ((extractCallData events).map (fun c => c.finalStatus) = some "Answered" ↔
      ∃ e ∈ events, isAnsweredPhone e = true) ∧
    ((extractCallData events).map (fun c => c.finalStatus) = some "Missed" ↔
      (¬ ∃ e ∈ events, isAnsweredPhone e = true) ∧
      ∃ e, findHuntGroupEvent events = some e ∧ jsOr e.destinationName e.sendName ≠ "") ∧
    ((extractCallData events).map (fun c => c.finalStatus) = some "IVR Only" ↔
      (¬ ∃ e ∈ events, isAnsweredPhone e = true) ∧
      (¬ ∃ e, findHuntGroupEvent events = some e ∧ jsOr e.destinationName e.sendName ≠ "") ∧
      ivrPathOf events ≠ []) ∧
    ((extractCallData events).map (fun c => c.finalStatus) = some "Abandoned" ↔
      (¬ ∃ e ∈ events, isAnsweredPhone e = true) ∧
      (¬ ∃ e, findHuntGroupEvent events = some e ∧ jsOr e.destinationName e.sendName ≠ "") ∧
      ivrPathOf events = []) := by
  match events, hne with
  | f :: rest, _ =>
    rw [extract_finalStatus, classify_fst]
    simp only [← findAnswered_isSome_iff, ← huntGroupLabel_ne_iff]
    by_cases h1 : (findAnswered (f :: rest)).isSome = true <;>
      by_cases h2 : huntGroupLabel (f :: rest) ≠ "" <;>
        by_cases h3 : ivrPathOf (f :: rest) ≠ [] <;>
          simp [h1, h2, h3] <;>
            exact not_ne_iff.mp h3

/-- C2 witness: a group with a hunt-group leg followed by an
answered-by-phone leg is classified `Answered`, not `Missed`. -/
theorem finalStatus_decision_table_witness :
    ([huntNamed, answeredAt10] ≠ []) ∧
    (extractCallData [huntNamed, answeredAt10]).map (fun c => c.finalStatus) =
      some "Answered" :=
  ⟨by decide,
    (finalStatus_decision_table [huntNamed, answeredAt10] (by decide)).1.mpr
      ⟨answeredAt10, by decide, by decide⟩⟩

/-- C3: at a group whose answered event is at 10 s and whose external
ended event is at 5 s (clock skew), the code stores
`Math.round((5000 - 10000)/1000) = -5` — the negative duration the
specification says must be clamped to 0. -/
theorem duration_negative_on_clock_skew :
    (∃ e ∈ [answeredAt10, endedAt5], isAnsweredPhone e = true) ∧
    (∃ e ∈ [answeredAt10, endedAt5], isEndedExternal e = true) ∧
    (extractCallData [answeredAt10, endedAt5]).map (fun c => c.duration) =
      some (some (-5)) ∧
    ((-5 : Int) < 0) := by decide

/-- C4 counterexample: for the IVR destination sequence `A, A, B, A` (in
time order) the code's global de-duplication produces the path `A → B`,
not the claimed `A → B → A` — the re-visit of `A` after leaving via `B`
is dropped. -/
theorem ivrPath_revisit_cex :
    ivrNamesRaw [ivrA1, ivrA2, ivrB3, ivrA4] = ["A", "A", "B", "A"] ∧
    (extractCallData [ivrA1, ivrA2, ivrB3, ivrA4]).map (fun c => c.ivrPath) =
      some "A → B" ∧
    "A → B" ≠ "A → B → A" := by decide

/-- C4 (amended): the extracted IVR path is the globally de-duplicated
list of non-blank IVR destination names in first-seen order (every later
copy of a name is dropped, adjacent or not), joined with arrows. -/
theorem ivrPath_global_dedup (events : List WebhookEvent) (hne : events ≠ []) :
    (extractCallData events).map (fun c => c.ivrPath) =
      some (String.intercalate " → " (firstSeen (ivrNamesRaw events))) := by
  match events, hne with
  | f :: rest, _ => rw [extract_ivrPath, ivrPathOf_eq_firstSeen]

/-- C4 witness: the amended statement evaluated on the `A, A, B, A`
group. -/
theorem ivrPath_global_dedup_witness :
    ([ivrA1, ivrA2, ivrB3, ivrA4] ≠ []) ∧
    (extractCallData [ivrA1, ivrA2, ivrB3, ivrA4]).map (fun c => c.ivrPath) =
      some (String.intercalate " → " (firstSeen (ivrNamesRaw [ivrA1, ivrA2, ivrB3, ivrA4]))) :=
  ⟨by decide, ivrPath_global_dedup [ivrA1, ivrA2, ivrB3, ivrA4] (by decide)⟩

/-- C5 counterexample: with two external `ended` events at 5 s and 9 s
(in time order), the code stores the *first* one's time (5 s), while the
claim demands the chronologically latest `ended` event (9 s). -/
theorem endTime_first_ended_cex :
    (extractCallData [endedAt5, endedAt9]).map (fun c => c.endTime) = some (some 5000) ∧
    specEndTime [endedAt5, endedAt9] = some 9000 ∧
    ((5000 : Int) ≠ 9000) := by decide

/-- C5 (amended): the record's end time is the `Start Time` of the
*first* event (in the given order) whose status is `ended` and whose send
type is `external`; an `ended` event with any other send type is ignored,
and when no such event exists the end time is null. -/
theorem endTime_first_ended_external (events : List WebhookEvent) (hne : events ≠ []) :
    (∀ (l1 : List WebhookEvent) (e : WebhookEvent) (l2 : List WebhookEvent),
      events = l1 ++ e :: l2 → (∀ y ∈ l1, isEndedExternal y = false) →
      isEndedExternal e = true →
      (extractCallData events).map (fun c => c.endTime) = some e.startTime) ∧
    ((∀ y ∈ events, isEndedExternal y = false) →
      (extractCallData events).map (fun c => c.endTime) = some none) := by
  constructor
  · intro l1 e l2 hsplit h1 hp
    cases events with
    | nil => exact absurd rfl hne
    | cons f rest =>
      rw [extract_endTime]
      unfold endTimeOf findEnded
      rw [hsplit, find?_append_cons isEndedExternal l1 l2 e h1 hp]
      rfl
  · intro hall
    cases events with
    | nil => exact absurd rfl hne
    | cons f rest =>
      rw [extract_endTime]
      unfold endTimeOf findEnded
      rw [List.find?_eq_none.mpr (fun x hx => by simp [hall x hx])]
      rfl

/-- C5 witness: the amended statement evaluated on the two-`ended` group:
the first external `ended` event (5 s) supplies the end time. -/
theorem endTime_first_ended_external_witness :
    ([endedAt5, endedAt9] ≠ []) ∧
    (extractCallData [endedAt5, endedAt9]).map (fun c => c.endTime) =
      some endedAt5.startTime :=
  ⟨by decide,
    (endTime_first_ended_external [endedAt5, endedAt9] (by decide)).1
      [] endedAt5 [endedAt9] rfl (by decide) (by decide)⟩

/-- C6 counterexample: the merger service's comparator falls back to
`Received At`, not `Call Start Time`. An event with no `Start Time`, a
late `Call Start Time` (20 s) and an early `Received At` sorts *before*
an event with `Start Time` 5 s, so the output is not ascending in the
claimed `eventTime`-else-`callStartTime` key. -/
theorem sort_fallback_cex :
    eventNoStart.startTime = none ∧
    sortEvents [eventNoStart, eventMidStart] = [eventNoStart, eventMidStart] ∧
    ¬ specSortKey eventNoStart ≤ specSortKey eventMidStart := by decide

/-- C6 (amended): the merger service sorts each group ascending by
`Start Time` falling back to `Received At`, and the Airtable automation
script sorts ascending by `Start Time` falling back to `Call Start Time`;
both sorts are stable permutations (equal keys keep arrival order, stated
as filter-invariance per key). -/
theorem sort_events_stable_keys (l : List WebhookEvent) :
    (sortEvents l).Perm l ∧
    (sortEvents l).Pairwise (fun a b => sortKey a ≤ sortKey b) ∧
    (∀ t, (sortEvents l).filter (fun e => sortKey e == t) =
      l.filter (fun e => sortKey e == t)) ∧
    (sortByKey specSortKey l).Perm l ∧
    (sortByKey specSortKey l).Pairwise (fun a b => specSortKey a ≤ specSortKey b) ∧
    (∀ t, (sortByKey specSortKey l).filter (fun e => specSortKey e == t) =
      l.filter (fun e => specSortKey e == t)) :=
  ⟨sortByKey_perm sortKey l, sortByKey_pairwise sortKey l,
    fun t => sortByKey_filter sortKey l t,
    sortByKey_perm specSortKey l, sortByKey_pairwise specSortKey l,
    fun t => sortByKey_filter specSortKey l t⟩

/-- C8 counterexample: on an empty event group, fact extraction does not
return an `Abandoned` record — it fails (the source dereferences
`firstEvent['Direction']` on `undefined`, raising a `TypeError`, modelled
as `none`). -/
theorem extract_empty_group_cex : extractCallData [] = none := rfl

/-- C8 (amended): extraction of an empty group fails instead of returning
a best-effort record, but every group produced by the grouping stage is
non-empty, and extraction succeeds on every such group. -/
theorem extract_empty_fails_groups_nonempty (evts : List WebhookEvent)
    (g : String × List WebhookEvent) (hg : g ∈ groupByCallId evts) :
    extractCallData [] = none ∧ g.2 ≠ [] ∧
      (extractCallData (sortEvents g.2)).isSome = true := by
  have hne := groupByCallId_ne_nil evts g hg
  exact ⟨rfl, hne, extract_isSome _ (sortEvents_ne_nil g.2 hne)⟩

/-- C8 witness: the amended statement evaluated on a one-event store. -/
theorem extract_empty_fails_groups_nonempty_witness :
    (("c", [huntNamed]) ∈ groupByCallId [huntNamed]) ∧
    (extractCallData [] = none ∧ [huntNamed] ≠ [] ∧
      (extractCallData (sortEvents [huntNamed])).isSome = true) :=
  ⟨by decide, extract_empty_fails_groups_nonempty [huntNamed] ("c", [huntNamed]) (by decide)⟩

/-- C9 counterexample: an event whose `Call ID` is missing (stored as
`''`) is *not* excluded from grouping — it forms the group keyed by the
empty string and is merged like any other group. -/
theorem missing_callId_grouped_cex :
    eventNoCallId.callId = "" ∧
    groupByCallId [eventNoCallId] = [("", [eventNoCallId])] := by decide

/-- C9 (amended): a webhook with a missing `callId` is rejected by the
receiver's validation before it can be staged (logged, non-fatal, nothing
stored); the grouping stage itself excludes nothing — every staged event,
including one with an empty `callId`, lands in the group keyed by its own
`callId`. -/
theorem missing_callId_rejected_at_ingress (now : Int) (freshId : Nat)
    (staged : List WebhookEvent) (w : WebhookData) (hw : w.callId = "") :
    handleWebhookWithValidation now freshId staged w = (staged, false) ∧
    (∀ (evts : List WebhookEvent) (e : WebhookEvent), e ∈ evts →
      ∃ g ∈ groupByCallId evts, g.1 = e.callId ∧ e ∈ g.2) := by
  constructor
  · unfold handleWebhookWithValidation validateWebhookData
    simp [hw]
  · exact fun evts e he => groupByCallId_total evts e he

/-- C9 witness: the amended statement at a concrete `callId`-less webhook
and at the concrete `callId`-less staged event. -/
theorem missing_callId_rejected_at_ingress_witness :
    (webhookNoCallId.callId = "") ∧
    (handleWebhookWithValidation 0 50 [] webhookNoCallId = ([], false) ∧
      (∀ (evts : List WebhookEvent) (e : WebhookEvent), e ∈ evts →
        ∃ g ∈ groupByCallId evts, g.1 = e.callId ∧ e ∈ g.2)) :=
  ⟨rfl, missing_callId_rejected_at_ingress 0 50 [] webhookNoCallId rfl⟩

/-- C10: every entry of the extracted IVR path is a non-blank name — an
`ivr` event with a blank or missing destination name contributes no
entry. -/
theorem ivrPath_entries_nonempty (events : List WebhookEvent) (name : String)
    (h : name ∈ ivrPathOf events) : name ≠ "" := by
  rw [ivrPathOf_eq_firstSeen] at h
  exact mem_ivrNamesRaw_ne_empty events name (firstSeen_subset _ name h)

/-- C10 witness: the statement evaluated on a concrete group whose path
is `[A]`. -/
theorem ivrPath_entries_nonempty_witness :
    ("A" ∈ ivrPathOf [ivrA1]) ∧ "A" ≠ "" :=
  ⟨by decide, ivrPath_entries_nonempty [ivrA1] "A" (by decide)⟩

/-! Supporting lemmas about the upsert on the `Calls` table. -/

lemma findByTelebroadId_key (store : CallsStore) (cid : String) (r : CallRecord)
    (h : findByTelebroadId store cid = some r) : r.telebroadCallId = cid := by
  have := List.find?_some h
  simpa using this

lemma extract_sorted_callId (evs : List WebhookEvent) (cid : String) (hne : evs ≠ [])
    (hcid : ∀ e ∈ evs, e.callId = cid) :
    ∃ cd, extractCallData (sortEvents evs) = some cd ∧ cd.telebroadCallId = cid := by
  cases hs : sortEvents evs with
  | nil => exact absurd hs (sortEvents_ne_nil evs hne)
  | cons f rest =>
    have hf : f ∈ evs := by
      have hmem : f ∈ sortEvents evs := by rw [hs]; exact List.mem_cons_self f rest
      exact (mem_sortByKey sortKey evs f).mp hmem
    exact ⟨_, rfl, hcid f hf⟩

lemma mergeCallEvents_found (store : CallsStore) (cid : String) (events : List WebhookEvent)
    (r : CallRecord) (cd : CallData)
    (hex : extractCallData (sortEvents events) = some cd)
    (hf : findByTelebroadId store cid = some r) :
    mergeCallEvents store cid events =
      some (updateCall store r.id cd,
        { action := .updated, callRecordId := r.id, callData := cd }) := by
  unfold mergeCallEvents
  rw [hex, hf]

lemma mergeCallEvents_notFound (store : CallsStore) (cid : String) (events : List WebhookEvent)
    (cd : CallData)
    (hex : extractCallData (sortEvents events) = some cd)
    (hf : findByTelebroadId store cid = none) :
    mergeCallEvents store cid events =
      some ((createCall store cd).1,
        { action := .created, callRecordId := (createCall store cd).2.id, callData := cd }) := by
  unfold mergeCallEvents
  rw [hex, hf]

lemma mergeCallEvents_isSome (store : CallsStore) (cid : String) (events : List WebhookEvent)
    (h : events ≠ []) : ∃ p, mergeCallEvents store cid events = some p := by
  cases hs : sortEvents events with
  | nil => exact absurd hs (sortEvents_ne_nil events h)
  | cons f rest =>
    cases hf : findByTelebroadId store cid with
    | some r => exact ⟨_, mergeCallEvents_found store cid events r _ (by rw [hs]; rfl) hf⟩
    | none => exact ⟨_, mergeCallEvents_notFound store cid events _ (by rw [hs]; rfl) hf⟩

lemma updateCall_length (store : CallsStore) (rid : Nat) (cd : CallData) :
    (updateCall store rid cd).records.length = store.records.length := by
  simp [updateCall]

lemma updateCall_ids (store : CallsStore) (rid : Nat) (cd : CallData) :
    (updateCall store rid cd).records.map (fun q => q.id) =
      store.records.map (fun q => q.id) := by
  unfold updateCall
  rw [List.map_map]
  refine List.map_congr_left ?_
  intro r _
  by_cases h : r.id = rid <;> simp [h]

lemma updateCall_key (store : CallsStore) (rid : Nat) (cd : CallData) (q : CallRecord)
    (hq : q ∈ (updateCall store rid cd).records) (hid : q.id = rid) :
    q.telebroadCallId = cd.telebroadCallId := by
  rcases List.mem_map.mp hq with ⟨x, _, rfl⟩
  by_cases h : x.id = rid
  · simp [h]
  · rw [if_neg h] at hid ⊢
    exact absurd hid h

lemma findByTelebroadId_create (store : CallsStore) (cd : CallData) (cid : String)
    (hkey : cd.telebroadCallId = cid)
    (hf : findByTelebroadId store cid = none) :
    findByTelebroadId (createCall store cd).1 cid = some (createCall store cd).2 := by
  unfold findByTelebroadId at hf ⊢
  unfold createCall
  rw [List.find?_append, hf]
  simp [hkey]

/-- C1: `mergeCallEvents` upserts keyed on the exact `callId`: when a
record with that `telebroadCallId` exists it is updated in place (same
storage id, same record count, key unchanged); otherwise exactly one new
record is created and is subsequently found under that key. Running the
pipeline twice for the same `callId`, the second time with a larger event
set, updates the record created by the first run instead of duplicating
it. -/
theorem upsert_keyed_on_callId (store : CallsStore) (callId : String)
    (events events2 : List WebhookEvent)
    (hne : events ≠ []) (hcid : ∀ e ∈ events, e.callId = callId)
    (hne2 : events2 ≠ []) (hcid2 : ∀ e ∈ events2, e.callId = callId) :
    (∀ r, findByTelebroadId store callId = some r →
      ∃ p, mergeCallEvents store callId events = some p ∧
        p.2.action = MergeAction.updated ∧
        p.2.callRecordId = r.id ∧
        p.1.records.length = store.records.length ∧
        p.1.records.map (fun q => q.id) = store.records.map (fun q => q.id) ∧
        (∀ q ∈ p.1.records, q.id = r.id → q.telebroadCallId = callId)) ∧
    (findByTelebroadId store callId = none →
      ∃ p, mergeCallEvents store callId events = some p ∧
        p.2.action = MergeAction.created ∧
        p.1.records.length = store.records.length + 1 ∧
        (∃ q, findByTelebroadId p.1 callId = some q ∧ q.id = p.2.callRecordId ∧
          q.telebroadCallId = callId)) ∧
    (findByTelebroadId store callId = none →
      ∃ p q, mergeCallEvents store callId events = some p ∧
        mergeCallEvents p.1 callId events2 = some q ∧
        p.2.action = MergeAction.created ∧ q.2.action = MergeAction.updated ∧
        q.2.callRecordId = p.2.callRecordId ∧
        q.1.records.length = p.1.records.length) := by
  obtain ⟨cd, hex, hcd⟩ := extract_sorted_callId events callId hne hcid
  obtain ⟨cd2, hex2, hcd2⟩ := extract_sorted_callId events2 callId hne2 hcid2
  refine ⟨?_, ?_, ?_⟩
  · intro r hf
    refine ⟨_, mergeCallEvents_found store callId events r cd hex hf, rfl, rfl,
      updateCall_length store r.id cd, updateCall_ids store r.id cd, ?_⟩
    intro q hq hid
    rw [updateCall_key store r.id cd q hq hid, hcd]
  · intro hf
    refine ⟨_, mergeCallEvents_notFound store callId events cd hex hf, rfl, ?_, ?_⟩
    · simp [createCall]
    · exact ⟨_, findByTelebroadId_create store cd callId hcd hf, rfl,
        by simpa [createCall] using hcd⟩
  · intro hf
    have hfind2 := findByTelebroadId_create store cd callId hcd hf
    refine ⟨_, _, mergeCallEvents_notFound store callId events cd hex hf,
      mergeCallEvents_found (createCall store cd).1 callId events2
        (createCall store cd).2 cd2 hex2 hfind2, rfl, rfl, rfl, ?_⟩
    exact updateCall_length (createCall store cd).1 (createCall store cd).2.id cd2

/-- C1 witness: merging call `c` into an empty store creates one record;
re-merging the same call with a larger event set updates that record
(same storage id, no duplicate). -/
theorem upsert_keyed_on_callId_witness :
    (([huntNamed] : List WebhookEvent) ≠ [] ∧
      (∀ e ∈ [huntNamed], e.callId = "c") ∧
      ([huntNamed, answeredAt10] : List WebhookEvent) ≠ [] ∧
      (∀ e ∈ [huntNamed, answeredAt10], e.callId = "c") ∧
      findByTelebroadId emptyCalls "c" = none) ∧
    (∃ p q, mergeCallEvents emptyCalls "c" [huntNamed] = some p ∧
      mergeCallEvents p.1 "c" [huntNamed, answeredAt10] = some q ∧
      p.2.action = MergeAction.created ∧ q.2.action = MergeAction.updated ∧
      q.2.callRecordId = p.2.callRecordId ∧
      q.1.records.length = p.1.records.length) :=
  ⟨⟨by decide, by decide, by decide, by decide, rfl⟩,
    (upsert_keyed_on_callId emptyCalls "c" [huntNamed] [huntNamed, answeredAt10]
      (by decide) (by decide) (by decide) (by decide)).2.2 rfl⟩

/-! Supporting lemmas for the merge pass. -/

lemma nat_contains_iff (l : List Nat) (a : Nat) : l.contains a = true ↔ a ∈ l := by
  simp [List.contains_eq_any_beq]

lemma markMany_mem_of_not_mem (ids : List Nat) (rid : Nat) (evts : List WebhookEvent)
    (e : WebhookEvent) (he : e ∈ evts) (h : ids.contains e.id = false) :
    e ∈ markMany ids rid evts := by
  have himg := List.mem_map_of_mem
    (fun x => if ids.contains x.id then
      { x with processed := true, mergedCallRecord := some rid } else x) he
  simpa only [markMany, h, Bool.false_eq_true, if_false] using himg

lemma markMany_marked (ids : List Nat) (rid : Nat) (evts : List WebhookEvent) (n : Nat)
    (h : ∃ y ∈ evts, y.id = n ∧ y.processed = true) :
    ∃ y ∈ markMany ids rid evts, y.id = n ∧ y.processed = true := by
  rcases h with ⟨y, hy, hid, hp⟩
  by_cases hc : ids.contains y.id = true
  · refine ⟨{ y with processed := true, mergedCallRecord := some rid }, ?_, hid, rfl⟩
    have himg := List.mem_map_of_mem
      (fun x => if ids.contains x.id then
        { x with processed := true, mergedCallRecord := some rid } else x) hy
    simpa only [markMany, hc, eq_self_iff_true, if_true] using himg
  · exact ⟨y, markMany_mem_of_not_mem ids rid evts y hy (by simpa using hc), hid, hp⟩

lemma markMany_marks (ids : List Nat) (rid : Nat) (evts : List WebhookEvent)
    (y : WebhookEvent) (hy : y ∈ evts) (hc : ids.contains y.id = true) :
    ∃ z ∈ markMany ids rid evts, z.id = y.id ∧ z.processed = true := by
  refine ⟨{ y with processed := true, mergedCallRecord := some rid }, ?_, rfl, rfl⟩
  have himg := List.mem_map_of_mem
    (fun x => if ids.contains x.id then
      { x with processed := true, mergedCallRecord := some rid } else x) hy
  simpa only [markMany, hc, eq_self_iff_true, if_true] using himg

lemma processGroup_events_cases (plan : FailurePlan) (acc : SystemState × Nat × Nat × Nat)
    (g : String × List WebhookEvent) :
    (processGroup plan acc g).1.events = acc.1.events ∨
    (plan.mergeFails g.1 = false ∧ plan.markFails g.1 = false ∧
      ∃ rid, (processGroup plan acc g).1.events =
        markMany (g.2.map (fun e => e.id)) rid acc.1.events) := by
  unfold processGroup
  by_cases hmf : plan.mergeFails g.1 = true
  · rw [if_pos hmf]
    exact Or.inl rfl
  · rw [if_neg hmf]
    have hmf' : plan.mergeFails g.1 = false := by simpa using hmf
    cases hmc : mergeCallEvents acc.1.calls g.1 g.2 with
    | none => exact Or.inl rfl
    | some res =>
      dsimp only
      by_cases hkf : plan.markFails g.1 = true
      · rw [if_pos hkf]
        exact Or.inl rfl
      · rw [if_neg hkf]
        exact Or.inr ⟨hmf', by simpa using hkf, res.2.callRecordId, rfl⟩

lemma processGroup_marked (plan : FailurePlan) (acc : SystemState × Nat × Nat × Nat)
    (g : String × List WebhookEvent) (n : Nat)
    (h : ∃ y ∈ acc.1.events, y.id = n ∧ y.processed = true) :
    ∃ y ∈ (processGroup plan acc g).1.events, y.id = n ∧ y.processed = true := by
  rcases processGroup_events_cases plan acc g with heq | ⟨_, _, rid, heq⟩ <;> rw [heq]
  · exact h
  · exact markMany_marked _ rid _ n h

lemma processGroup_inv (plan : FailurePlan) (acc : SystemState × Nat × Nat × Nat)
    (g : String × List WebhookEvent) (e : WebhookEvent)
    (h : e ∈ acc.1.events ∨ ∃ y ∈ acc.1.events, y.id = e.id ∧ y.processed = true) :
    e ∈ (processGroup plan acc g).1.events ∨
      ∃ y ∈ (processGroup plan acc g).1.events, y.id = e.id ∧ y.processed = true := by
  rcases processGroup_events_cases plan acc g with heq | ⟨_, _, rid, heq⟩ <;> rw [heq]
  · exact h
  · rcases h with he | hm
    · by_cases hc : (g.2.map (fun x => x.id)).contains e.id = true
      · exact Or.inr (markMany_marks _ rid _ e he hc)
      · exact Or.inl (markMany_mem_of_not_mem _ rid _ e he (by simpa using hc))
    · exact Or.inr (markMany_marked _ rid _ e.id hm)

lemma foldl_processGroup_inv (plan : FailurePlan) :
    ∀ (gs : List (String × List WebhookEvent)) (acc : SystemState × Nat × Nat × Nat)
      (e : WebhookEvent),
      (e ∈ acc.1.events ∨ ∃ y ∈ acc.1.events, y.id = e.id ∧ y.processed = true) →
      (e ∈ (gs.foldl (processGroup plan) acc).1.events ∨
        ∃ y ∈ (gs.foldl (processGroup plan) acc).1.events,
          y.id = e.id ∧ y.processed = true) := by
  intro gs
  induction gs with
  | nil => intro acc e h; exact h
  | cons g gs ih => intro acc e h; exact ih (processGroup plan acc g) e (processGroup_inv plan acc g e h)

lemma foldl_processGroup_marked (plan : FailurePlan) :
    ∀ (gs : List (String × List WebhookEvent)) (acc : SystemState × Nat × Nat × Nat) (n : Nat),
      (∃ y ∈ acc.1.events, y.id = n ∧ y.processed = true) →
      ∃ y ∈ (gs.foldl (processGroup plan) acc).1.events, y.id = n ∧ y.processed = true := by
  intro gs
  induction gs with
  | nil => intro acc n h; exact h
  | cons g gs ih => intro acc n h; exact ih (processGroup plan acc g) n (processGroup_marked plan acc g n h)

lemma processGroup_untouched (plan : FailurePlan) (acc : SystemState × Nat × Nat × Nat)
    (g : String × List WebhookEvent) (e : WebhookEvent) (E : List WebhookEvent)
    (hsound : ∀ x ∈ g.2, x ∈ E ∧ x.callId = g.1)
    (hids : (E.map (fun x => x.id)).Nodup)
    (heE : e ∈ E)
    (hflag : plan.mergeFails e.callId = true ∨ plan.markFails e.callId = true)
    (he : e ∈ acc.1.events) : e ∈ (processGroup plan acc g).1.events := by
  rcases processGroup_events_cases plan acc g with heq | ⟨hmf, hkf, rid, heq⟩ <;> rw [heq]
  · exact he
  · by_cases hc : (g.2.map (fun x => x.id)).contains e.id = true
    · exfalso
      have hmem : e.id ∈ g.2.map (fun x => x.id) := (nat_contains_iff _ _).mp hc
      rcases List.mem_map.mp hmem with ⟨x, hxg, hxid⟩
      rcases hsound x hxg with ⟨hxE, hxcid⟩
      have hxe : x = e := List.inj_on_of_nodup_map hids hxE heE hxid
      rw [hxe] at hxcid
      rcases hflag with hflag | hflag
      · rw [hxcid] at hflag
        exact absurd hflag (by simp [hmf])
      · rw [hxcid] at hflag
        exact absurd hflag (by simp [hkf])
    · exact markMany_mem_of_not_mem _ rid _ e he (by simpa using hc)

lemma foldl_processGroup_untouched (plan : FailurePlan) (e : WebhookEvent)
    (E : List WebhookEvent)
    (hids : (E.map (fun x => x.id)).Nodup)
    (heE : e ∈ E)
    (hflag : plan.mergeFails e.callId = true ∨ plan.markFails e.callId = true) :
    ∀ (gs : List (String × List WebhookEvent)) (acc : SystemState × Nat × Nat × Nat),
      (∀ g ∈ gs, ∀ x ∈ g.2, x ∈ E ∧ x.callId = g.1) →
      e ∈ acc.1.events → e ∈ (gs.foldl (processGroup plan) acc).1.events := by
  intro gs
  induction gs with
  | nil => intro acc _ he; exact he
  | cons g gs ih =>
    intro acc hsound he
    exact ih (processGroup plan acc g)
      (fun g' hg' => hsound g' (List.mem_cons_of_mem g hg'))
      (processGroup_untouched plan acc g e E (hsound g (List.mem_cons_self g gs)) hids heE
        hflag he)

lemma processGroup_marks_group (plan : FailurePlan) (acc : SystemState × Nat × Nat × Nat)
    (g : String × List WebhookEvent) (e : WebhookEvent)
    (hmf : plan.mergeFails g.1 = false) (hkf : plan.markFails g.1 = false)
    (heg : e ∈ g.2)
    (hinv : e ∈ acc.1.events ∨ ∃ y ∈ acc.1.events, y.id = e.id ∧ y.processed = true) :
    ∃ y ∈ (processGroup plan acc g).1.events, y.id = e.id ∧ y.processed = true := by
  obtain ⟨p, hp⟩ := mergeCallEvents_isSome acc.1.calls g.1 g.2 (List.ne_nil_of_mem heg)
  have hev : (processGroup plan acc g).1.events =
      markMany (g.2.map (fun x => x.id)) p.2.callRecordId acc.1.events := by
    unfold processGroup
    simp [hmf, hp, hkf]
  rw [hev]
  rcases hinv with he | hm
  · exact markMany_marks _ _ _ e he
      ((nat_contains_iff _ _).mpr (List.mem_map_of_mem (fun x => x.id) heg))
  · exact markMany_marked _ _ _ e.id hm

lemma processGroup_counts (plan : FailurePlan) (acc : SystemState × Nat × Nat × Nat)
    (g : String × List WebhookEvent) (hne : g.2 ≠ []) :
    ((processGroup plan acc g).2.1 + (processGroup plan acc g).2.2.1 =
      acc.2.1 + acc.2.2.1 + (if plan.mergeFails g.1 then 0 else 1)) ∧
    ((processGroup plan acc g).2.2.2 =
      acc.2.2.2 + (if plan.mergeFails g.1 || plan.markFails g.1 then 1 else 0)) := by
  obtain ⟨p, hp⟩ := mergeCallEvents_isSome acc.1.calls g.1 g.2 hne
  unfold processGroup
  by_cases hmf : plan.mergeFails g.1 = true
  · simp [hmf]
  · have hmf' : plan.mergeFails g.1 = false := by simpa using hmf
    cases hact : p.2.action <;> by_cases hkf : plan.markFails g.1 = true <;>
      simp [hmf', hp, hact, hkf] <;> omega

lemma foldl_processGroup_counts (plan : FailurePlan) :
    ∀ (gs : List (String × List WebhookEvent)) (acc : SystemState × Nat × Nat × Nat),
      (∀ g ∈ gs, g.2 ≠ []) →
      ((gs.foldl (processGroup plan) acc).2.1 + (gs.foldl (processGroup plan) acc).2.2.1 =
        acc.2.1 + acc.2.2.1 + (gs.filter (fun g => !plan.mergeFails g.1)).length) ∧
      ((gs.foldl (processGroup plan) acc).2.2.2 =
        acc.2.2.2 +
          (gs.filter (fun g => plan.mergeFails g.1 || plan.markFails g.1)).length) := by
  intro gs
  induction gs with
  | nil => intro acc _; simp
  | cons g gs ih =>
    intro acc hne
    have hne' : ∀ g' ∈ gs, g'.2 ≠ [] := fun g' hg' => hne g' (List.mem_cons_of_mem g hg')
    rcases processGroup_counts plan acc g (hne g (List.mem_cons_self g gs)) with ⟨s1, s2⟩
    rcases ih (processGroup plan acc g) hne' with ⟨i1, i2⟩
    rw [List.foldl_cons, List.filter_cons, List.filter_cons]
    constructor
    · rw [i1, s1]
      by_cases hmf : plan.mergeFails g.1 = true <;> simp [hmf] <;> omega
    · rw [i2, s2]
      by_cases hmf : plan.mergeFails g.1 = true <;>
        by_cases hkf : plan.markFails g.1 = true <;> simp [hmf, hkf] <;> omega

lemma passGroups_sound (st : SystemState) :
    ∀ g ∈ passGroups st, ∀ x ∈ g.2, x ∈ st.events ∧ x.callId = g.1 := by
  intro g hg x hx
  have h := groupByCallId_sound
    (sortByKey (fun e => e.receivedAt) (st.events.filter (fun e => !e.processed))) g hg x hx
  refine ⟨?_, h.2⟩
  have hxf : x ∈ st.events.filter (fun e => !e.processed) :=
    (mem_sortByKey (fun e => e.receivedAt) _ x).mp h.1
  exact (List.mem_filter.mp hxf).1

lemma passGroups_ne_nil (st : SystemState) : ∀ g ∈ passGroups st, g.2 ≠ [] :=
  groupByCallId_ne_nil _

/-- C7 counterexample: the returned summary does not report the number of
failed groups. Two runs over the same one-group batch — one in which
marking the group's events as processed throws (so the group fails and
its events stay unconsumed) and one with no failures — return the *same*
summary, yet their failed-group counts differ (1 vs 0). No reading of the
summary can therefore recover "groups that failed". -/
theorem merge_summary_hides_failures_cex :
    (runMergePass planMarkCFails demoStateOne).2 = (runMergePass planAllOk demoStateOne).2 ∧
    failedGroupCount planMarkCFails demoStateOne = 1 ∧
    failedGroupCount planAllOk demoStateOne = 0 ∧
    (runMergePass planMarkCFails demoStateOne).1.events.map (fun e => e.processed) =
      [false] ∧
    (runMergePass planAllOk demoStateOne).1.events.map (fun e => e.processed) =
      [true] := by decide

/-- C7 (amended): per-group failures are isolated — a group whose store
operations throw leaves its events untouched (unconsumed), every group
whose operations all succeed has its events marked processed, and the
returned summary reports `processed` = the total number of groups
(including failed ones), plus created and updated counts; the number of
failed groups is only logged, never returned. -/
theorem merge_pass_failure_isolation (plan : FailurePlan) (st : SystemState)
    (hids : (st.events.map (fun e => e.id)).Nodup) :
    (runMergePass plan st).2.processed = (passGroups st).length ∧
    (runMergePass plan st).2.created + (runMergePass plan st).2.updated =
      ((passGroups st).filter (fun g => !plan.mergeFails g.1)).length ∧
    failedGroupCount plan st =
      ((passGroups st).filter (fun g => plan.mergeFails g.1 || plan.markFails g.1)).length ∧
    (∀ e ∈ st.events,
      (plan.mergeFails e.callId = true ∨ plan.markFails e.callId = true) →
      e ∈ (runMergePass plan st).1.events) ∧
    (∀ e ∈ st.events, e.processed = false →
      plan.mergeFails e.callId = false → plan.markFails e.callId = false →
      ∃ y ∈ (runMergePass plan st).1.events, y.id = e.id ∧ y.processed = true) := by
  have hcounts := foldl_processGroup_counts plan (passGroups st) (st, 0, 0, 0)
    (passGroups_ne_nil st)
  refine ⟨rfl, ?_, ?_, ?_, ?_⟩
  · simpa using hcounts.1
  · simpa using hcounts.2
  · intro e he hflag
    exact foldl_processGroup_untouched plan e st.events hids he hflag (passGroups st)
      (st, 0, 0, 0) (passGroups_sound st) he
  · intro e he hproc hmf hkf
    have hef : e ∈ st.events.filter (fun x => !x.processed) :=
      List.mem_filter.mpr ⟨he, by simp [hproc]⟩
    have hes : e ∈ sortByKey (fun x => x.receivedAt)
        (st.events.filter (fun x => !x.processed)) :=
      (mem_sortByKey (fun x => x.receivedAt) _ e).mpr hef
    obtain ⟨g, hg, hkey, heg⟩ := groupByCallId_total _ e hes
    rcases List.append_of_mem hg with ⟨s, t, hsplit⟩
    have hshow : (runMergePass plan st).1.events =
        ((groupByCallId (sortByKey (fun x => x.receivedAt)
          (st.events.filter (fun x => !x.processed)))).foldl
            (processGroup plan) (st, 0, 0, 0)).1.events := rfl
    rw [hshow, hsplit, List.foldl_append, List.foldl_cons]
    have hA := foldl_processGroup_inv plan s (st, 0, 0, 0) e (Or.inl he)
    have hB := processGroup_marks_group plan (s.foldl (processGroup plan) (st, 0, 0, 0)) g e
      (by rw [hkey]; exact hmf) (by rw [hkey]; exact hkf) heg hA
    exact foldl_processGroup_marked plan t _ e.id hB

/-- C7 witness: a two-group batch in which the upsert for call `c`
throws: call `d` is still processed (created and consumed), call `c`'s
event stays unconsumed, and the summary counts both groups as processed
with one record created. -/
theorem merge_pass_failure_isolation_witness :
    ((demoStateTwo.events.map (fun e => e.id)).Nodup ∧
      huntNamed ∈ demoStateTwo.events ∧
      planMergeCFails.mergeFails huntNamed.callId = true ∧
      huntNamedD ∈ demoStateTwo.events ∧ huntNamedD.processed = false ∧
      planMergeCFails.mergeFails huntNamedD.callId = false ∧
      planMergeCFails.markFails huntNamedD.callId = false) ∧
    ((runMergePass planMergeCFails demoStateTwo).2 =
      { processed := 2, created := 1, updated := 0 } ∧
      failedGroupCount planMergeCFails demoStateTwo = 1 ∧
      huntNamed ∈ (runMergePass planMergeCFails demoStateTwo).1.events ∧
      (∃ y ∈ (runMergePass planMergeCFails demoStateTwo).1.events,
        y.id = huntNamedD.id ∧ y.processed = true)) := by
  have h := merge_pass_failure_isolation planMergeCFails demoStateTwo (by decide)
  refine ⟨⟨by decide, by decide, by decide, by decide, by decide, by decide, by decide⟩,
    by decide, by decide, ?_, ?_⟩
  · exact h.2.2.2.1 huntNamed (by decide) (Or.inl (by decide))
  · exact h.2.2.2.2 huntNamedD (by decide) (by decide) (by decide) (by decide)

end CallTracking
